import Mathlib

/-!
# Verification of the emmet builder protocol

A shallow embedding of the incremental-builder logic of this repository:

* `OrbitalBuilder` (emmet-builders/emmet/builders/molecules/orbitals.py):
  discovery (`get_items`, lines 114-161), chunking (`prechunk`, lines 88-112),
  transform (`process_item`, lines 163-258) and load (`update_targets`,
  lines 260-288).
* `Boltztrap2DosBuilder.process_item` (emmet/materials/boltztrap2.py,
  lines 77-121).

Stores are embedded as Lean lists of typed documents; MongoDB-style operations
(`query`, `query_one`, `distinct`, `remove_docs`, upsert `update`) are embedded
as list operations with the semantics of the store capability interface.
Python floats (entry energies) are embedded as `Rat` — the claims under study
depend only on order comparisons, not on rounding — and the integer
level-of-theory component scores as `Int`.
Python strings and ints used as ids are embedded as `String` / `Int`.
-/

namespace Emmet

/-- A task identifier as it occurs both in molecule entries (`entry["task_id"]`)
and in task documents (`task["task_id"]`): in the store it may be either an int
or a string.  Equality is Python `==` between such values: two ints compare by
value, two strings by value, and an int never equals a string. -/
inductive TId where
  | i (n : Int)
  | s (v : String)
  deriving DecidableEq

/-- Python `int(task)` as used in the fallback lookup of `process_item`
(orbitals.py line 232): an int is returned unchanged, a string is parsed as a
decimal integer, and a non-numeric string raises `ValueError`, embedded as
`none`. -/
def TId.intCoerce : TId → Option Int
  | .i n => some n
  | .s v => v.toInt?

/-- Modelled from the spec: the level-of-theory descriptor of an entry.
`evaluate_lot` (imported from `emmet.core.qchem.molecule`, which is part of
this repository but not under src/) maps the descriptor to a tuple of
component scores; the builder uses only the sum of that tuple
(orbitals.py line 213).  We carry the component scores directly. -/
structure LevelOfTheory where
  scores : List Int
  deriving DecidableEq

/-- Modelled from the spec: `evaluate_lot` returns the tuple of ordered
component scores of a level of theory; lower is better. -/
def evaluate_lot (lot : LevelOfTheory) : List Int :=
  lot.scores

/-- One entry of `MoleculeDoc.entries` as read by `process_item`
(orbitals.py lines 181-219): a dict carrying charge, spin multiplicity,
level of theory, solvent, energy, the optional NBO output
(`e["output"]["nbo"]`, only its presence is inspected), the two rem flags
(`e["orig"]["rem"].get("run_nbo6", False)` and
`e["orig"]["rem"].get("nbo_external", False)`, embedded with the `.get`
default folded in), and the foreign task id. -/
structure Entry where
  charge : Int
  spin_multiplicity : Int
  level_of_theory : LevelOfTheory
  solvent : String
  energy : Rat
  nbo : Option Unit
  run_nbo6 : Bool
  nbo_external : Bool
  task_id : TId
  deriving DecidableEq

/-- A molecule document, restricted to the fields `OrbitalBuilder` reads
(`molecule_id`, `formula_alphabetical`, `deprecated`, `charge`,
`spin_multiplicity`, `entries`). -/
structure MolDoc where
  molecule_id : String
  formula_alphabetical : String
  deprecated : Bool
  charge : Int
  spin_multiplicity : Int
  entries : List Entry
  deriving DecidableEq

/-- A task document, restricted to the fields the builder's task lookup and
the derived-document construction use: `task_id`, `formula_alphabetical`,
presence of the `orig` field (queried as `"orig": \x7b"$exists": True\x7d`),
and the solvent of the calculation (used by the derived document). -/
structure TaskRec where
  task_id : TId
  formula_alphabetical : String
  has_orig : Bool
  solvent : String
  deriving DecidableEq

/-- A derived orbital document, restricted to the fields the builder protocol
manipulates: `molecule_id` and `solvent` (the composite upsert key of
`update_targets`), the originating `task_id`, and the build timestamp `_bt`
stamped by `update_targets` (absent until first stamped). -/
structure OrbOut where
  molecule_id : String
  solvent : String
  task_id : TId
  bt : Option Nat
  deriving DecidableEq

/-- Modelled from the spec: `OrbitalDoc.from_task` (in
`emmet.core.molecules.orbitals`, part of this repository but not under src/)
is the deterministic derived-document construction function: from the
originating task record and the molecule id it builds the derived document,
keyed by molecule id and solvent, with no timestamp yet. -/
def OrbitalDoc_from_task (t : TaskRec) (molId : String) : OrbOut :=
  { molecule_id := molId, solvent := t.solvent, task_id := t.task_id, bt := none }

/-- `self.tasks.query_one` with the criteria of orbitals.py lines 221-227:
the first task document (store order) whose `task_id` equals the given value
under Python equality, whose `formula_alphabetical` matches, and which has an
`orig` field; `none` when no document matches. -/
def tasks_query_one (tasks : List TaskRec) (t : TId) (f : String) : Option TaskRec :=
  tasks.find? fun d => d.task_id == t && d.formula_alphabetical == f && d.has_orig

/-- The task-resolution logic of `process_item` (orbitals.py lines 219-242):
a primary `query_one` on the entry's `task_id`; on a miss, a retry with the
int-coerced id (`int(task)`), where a coercion failure (`ValueError`) yields
`none`; `none` when both lookups miss. -/
def resolveTask (tasks : List TaskRec) (f : String) (t : TId) : Option TaskRec :=
  match tasks_query_one tasks t f with
  | some d => some d
  | none =>
    match t.intCoerce with
    | some n => tasks_query_one tasks (TId.i n) f
    | none => none

/-- The sort key of orbitals.py lines 212-215:
`(sum(evaluate_lot(x["level_of_theory"])), x["energy"])`. -/
def rankingKey (e : Entry) : Int × Rat :=
  ((evaluate_lot e.level_of_theory).sum, e.energy)

/-- Strict lexicographic comparison of ranking keys (Python tuple `<`). -/
def keyLt (a b : Int × Rat) : Bool :=
  decide (a.1 < b.1) || (a.1 == b.1 && decide (a.2 < b.2))

/-- Stable insertion of an entry into a list sorted ascending by
`rankingKey`: the entry goes before the first element with a strictly greater
key, hence after all earlier elements with an equal key. -/
def insertByKey (a : Entry) : List Entry → List Entry
  | [] => [a]
  | b :: bs =>
    if keyLt (rankingKey b) (rankingKey a) then b :: insertByKey a bs
    else a :: b :: bs

/-- Python `sorted(entries, key=rankingKey)` (orbitals.py lines 210-216):
a stable ascending sort by `rankingKey`.  A stable sort's output is uniquely
determined by the key order and the input order, so this insertion sort yields
exactly the list Python's stable sort yields. -/
def sortedByKey : List Entry → List Entry
  | [] => []
  | x :: xs => insertByKey x (sortedByKey xs)

/-- The inner loop `for best in sorted_entries:` of `process_item`
(orbitals.py lines 218-254), applied to the already-sorted entry list: for
each entry, resolve its task (primary + fallback lookup); on a double miss,
`continue` to the next entry; on a hit, validate into a `TaskDocument`
(embedding of already-typed records: always succeeds) and append the document
built by `OrbitalDoc.from_task`.  The source loop has no `break`: it
continues through every sorted entry. -/
def solventLoop (tasks : List TaskRec) (f : String) (molId : String) :
    List Entry → List OrbOut
  | [] => []
  | best :: rest =>
    match resolveTask tasks f best.task_id with
    | none => solventLoop tasks f molId rest
    | some t => OrbitalDoc_from_task t molId :: solventLoop tasks f molId rest

/-- The candidate pool of one molecule (orbitals.py lines 181-198):
entries whose charge and spin multiplicity equal the molecule's
(`correct_charge_spin`), restricted to those with NBO output present and run
with NBO7 (`run_nbo6` or `nbo_external` set) — `orbital_entries`. -/
def candidatePool (mol : MolDoc) : List Entry :=
  (mol.entries.filter fun e =>
      e.charge == mol.charge && e.spin_multiplicity == mol.spin_multiplicity).filter
    fun e => e.nbo.isSome && (e.run_nbo6 || e.nbo_external)

/-- The keys of the `by_solvent` defaultdict (orbitals.py lines 200-203) in
iteration order: Python dicts iterate keys in first-insertion order. -/
def solventKeys (entries : List Entry) : List String :=
  entries.foldl (fun ks e => if e.solvent ∈ ks then ks else ks ++ [e.solvent]) []

/-- The partition `by_solvent[s]` (orbitals.py lines 200-203): the entries
with solvent `s`, in input order. -/
def bySolvent (entries : List Entry) (s : String) : List Entry :=
  entries.filter fun e => e.solvent == s

/-- The per-molecule body of `process_item` (orbitals.py lines 181-254):
filter to the candidate pool, partition by solvent, and for each solvent (in
first-seen order) sort by ranking key and run the entry loop; the
`if len(entries) == 0: continue` guard of line 207 is kept verbatim. -/
def docsForMol (tasks : List TaskRec) (f : String) (mol : MolDoc) : List OrbOut :=
  let pool := candidatePool mol
  (solventKeys pool).foldl
    (fun acc s =>
      let entries := bySolvent pool s
      if entries.length == 0 then acc
      else acc ++ solventLoop tasks f mol.molecule_id (sortedByKey entries))
    []

/-- `OrbitalBuilder.process_item` (orbitals.py lines 163-258): validate the
items (embedding of already-typed records), read the group formula from the
first molecule — an `IndexError` on an empty group, embedded as `Except.error`
— then gather the per-molecule documents in order.  `jsanitize`/`model_dump`
are serialization identities in this embedding. -/
def process_item (tasks : List TaskRec) (items : List MolDoc) :
    Except String (List OrbOut) :=
  match items with
  | [] => .error "IndexError: list index out of range"
  | m0 :: _ => .ok ((items.map (docsForMol tasks m0.formula_alphabetical)).flatten)

/-- Whether two derived documents collide on the composite upsert key
`["molecule_id", "solvent"]` of `update_targets` (orbitals.py line 285). -/
def keyClash (a b : OrbOut) : Bool :=
  a.molecule_id == b.molecule_id && a.solvent == b.solvent

/-- MongoDB-style upsert of one document by the composite key: replace the
first stored document with the same key, or append when none matches.  This
is the per-document semantics of the store capability
`update(documents, keyFields)`. -/
def upsertOne : List OrbOut → OrbOut → List OrbOut
  | [], d => [d]
  | x :: xs, d => if keyClash x d then d :: xs else x :: upsertOne xs d

/-- `store.update(docs, key=["molecule_id", "solvent"])`
(orbitals.py lines 283-286): upsert the documents one by one, in order. -/
def upsertAll (store : List OrbOut) (docs : List OrbOut) : List OrbOut :=
  docs.foldl upsertOne store

/-- `store.remove_docs(\x7bkey: \x7b"$in": ids\x7d\x7d)` (orbitals.py
line 282): delete every stored document whose `molecule_id` — the orbitals
store's primary key, as the update key and the ensured indexes show — is in
the given id set. -/
def remove_by_ids (ids : List String) (store : List OrbOut) : List OrbOut :=
  store.filter fun d => !(ids.contains d.molecule_id)

/-- The timestamp stamping of orbitals.py lines 271-276:
`item.update(\x7b"_bt": self.timestamp\x7d)`. -/
def stampBt (ts : Nat) (d : OrbOut) : OrbOut :=
  { d with bt := some ts }

/-- `OrbitalBuilder.update_targets` (orbitals.py lines 260-288): flatten the
batch, stamp every document with the run timestamp, collect the set of
molecule ids touched; when the outer item list is non-empty, remove every
stored document whose molecule id is in that set and upsert the stamped
batch by the composite key `(molecule_id, solvent)`; otherwise only log. -/
def update_targets (ts : Nat) (items : List (List OrbOut)) (store : List OrbOut) :
    List OrbOut :=
  let docs := items.flatten.map (stampBt ts)
  let molecule_ids := (docs.map (·.molecule_id)).dedup
  if items.length > 0 then upsertAll (remove_by_ids molecule_ids store) docs
  else store

/-- `molecules.query(temp_query, ...)` of `get_items` and `prechunk`
(orbitals.py lines 91-99 and 132-140): the extra builder query `q` (an opaque
criteria predicate) merged with `deprecated = False`. -/
def all_mols (q : MolDoc → Bool) (mols : List MolDoc) : List MolDoc :=
  mols.filter fun m => q m && !m.deprecated

/-- `orbitals.distinct("molecule_id")` (orbitals.py lines 101 and 142): the
distinct molecule ids present in the target store. -/
def orb_ids (orbs : List OrbOut) : List String :=
  (orbs.map (·.molecule_id)).dedup

/-- The unprocessed-document set `to_process_docs` (orbitals.py lines 102
and 143): ids of matching non-deprecated molecules minus the ids already in
the orbitals store; a Python set, embedded as a deduplicated list. -/
def to_process_docs (q : MolDoc → Bool) (mols : List MolDoc) (orbs : List OrbOut) :
    List String :=
  (((all_mols q mols).map (·.molecule_id)).dedup).filter
    fun i => !(orb_ids orbs).contains i

/-- The pending group-key set `to_process_forms` (orbitals.py lines 103-107
and 144-148, two verbatim copies in `prechunk` and `get_items`): formulas of
the matching molecules whose id is unprocessed; a Python set, embedded as a
deduplicated list. -/
def to_process_forms (q : MolDoc → Bool) (mols : List MolDoc) (orbs : List OrbOut) :
    List String :=
  (((all_mols q mols).filter fun m =>
      (to_process_docs q mols orbs).contains m.molecule_id).map
    (·.formula_alphabetical)).dedup

/-- The work group `get_items` yields for one pending formula (orbitals.py
lines 156-161): the matching non-deprecated molecules with that
`formula_alphabetical`. -/
def group_for (q : MolDoc → Bool) (mols : List MolDoc) (f : String) : List MolDoc :=
  (all_mols q mols).filter fun m => m.formula_alphabetical == f

/-- `maggma.utils.grouper` (an external library helper, semantics per the
spec's chunking contract and itertools): split a list into consecutive chunks
of size `n`; with `n = 0` (only reached when the list is empty, since
`N = ceil(len/splits)`) the iteration yields nothing. -/
def grouper (n : Nat) : List α → List (List α)
  | [] => []
  | x :: xs =>
    if _h : n = 0 then []
    else (x :: xs).take n :: grouper n ((x :: xs).drop n)
termination_by l => l.length
decreasing_by
  simp only [List.length_drop, List.length_cons]
  omega

/-- `OrbitalBuilder.prechunk(number_splits)` (orbitals.py lines 88-112): the
pending formula set, split into chunks of size
`N = ceil(|pending| / number_splits)`; each chunk becomes one criteria
filter.  `ceil` over exact division, as `math.ceil` computes on these sizes. -/
def prechunk (q : MolDoc → Bool) (mols : List MolDoc) (orbs : List OrbOut)
    (number_splits : Nat) : List (List String) :=
  let forms := to_process_forms q mols orbs
  grouper ((forms.length + number_splits - 1) / number_splits) forms

/-! ## Boltztrap2DosBuilder.process_item (emmet/materials/boltztrap2.py) -/

/-- The Python names visible inside the body of
`Boltztrap2DosBuilder.process_item` at the two `BandstructureLoader` calls
(boltztrap2.py lines 103-104 and 117): the locals bound earlier in the body
(`self`, `item`, `nelect`, `bs_dict`, `bs`, `projections`), the module-level
bindings of boltztrap2.py (`logging`, `datetime`, `jsanitize`, `ScratchDir`,
`Structure`, `Builder`, `Boltztrap2DosBuilder`, `__author__`), and the public
names brought in by the star form of
`from pymatgen.electronic_structure.boltztrap2` (the loader/interpolator
classes, `merge_up_down_doses`, and the
module aliases such as `np` that builder methods rely on).  No binding named
`st` exists at module, class or function scope. -/
def boltztrap2_scope : List String :=
  ["self", "item", "nelect", "bs_dict", "bs", "projections",
   "logging", "datetime", "jsanitize", "ScratchDir", "Structure",
   "Builder", "Boltztrap2DosBuilder", "__author__",
   "BandstructureLoader", "VasprunLoader", "BztInterpolator",
   "BztTransportProperties", "BztPlotter", "merge_up_down_doses",
   "np", "units", "BandStructure", "Spin", "CompleteDos", "Orbital"]

/-- Python name resolution: looking up a name not bound in any enclosing
scope raises `NameError`. -/
def lookupName (env : List String) (x : String) : Except String Unit :=
  if x ∈ env then .ok () else .error ("NameError: name " ++ x ++ " is not defined")

/-- The fields of the item dict that `Boltztrap2DosBuilder.process_item`
reads before branching (boltztrap2.py lines 90-102): presence of
`item["input"]["parameters"]["NELECT"]`, presence of
`item["uniform_bandstructure"]["bs"]` and of `item["structure"]`, and the
spin polarization of the reconstructed band structure, which selects the
branch. -/
structure BoltzItem where
  has_input_parameters_nelect : Bool
  has_uniform_bandstructure_bs : Bool
  has_structure : Bool
  is_spin_polarized : Bool

/-- `Boltztrap2DosBuilder.process_item` (boltztrap2.py lines 77-121): the
dict lookups of lines 90-93 raise `KeyError` when a field is absent;
otherwise the spin-polarized branch (lines 102-114) and the unpolarized
branch (lines 116-119) each evaluate `BandstructureLoader(bs, st, ...)`,
whose argument `st` is resolved by Python name lookup in
`boltztrap2_scope`.  The continuation after a successful lookup (the
interpolation producing a DOS dict) is unreachable and embedded as a unit
result. -/
def boltztrap2_process_item (it : BoltzItem) : Except String Unit :=
  if !it.has_input_parameters_nelect then .error "KeyError: NELECT"
  else if !it.has_uniform_bandstructure_bs then .error "KeyError: uniform_bandstructure"
  else if !it.has_structure then .error "KeyError: structure"
  else if it.is_spin_polarized then
    match lookupName boltztrap2_scope "st" with
    | .error e => .error e
    | .ok _ => .ok ()
  else
    match lookupName boltztrap2_scope "st" with
    | .error e => .error e
    | .ok _ => .ok ()

/-- Projection of a derived document onto everything but the build
timestamp: "identical except for the build timestamp field". -/
def eraseBt (d : OrbOut) : OrbOut :=
  { d with bt := none }

/-- The at-most-one-document-per-(molecule id, solvent) store invariant
(spec §3, §8). -/
abbrev atMostOnePerKey (s : List OrbOut) : Prop :=
  s.Pairwise fun a b => keyClash a b = false

/-! ## Concrete fixture: the spec's three-entry scenario (spec §8) -/

/-- An entry of the scenario: solvent, theory score, energy, task id; NBO
present, run with NBO7, charge 0 and spin multiplicity 1 throughout. -/
def scnEntry (solv : String) (score : Int) (en : Rat) (tid : String) : Entry :=
  { charge := 0, spin_multiplicity := 1, level_of_theory := ⟨[score]⟩,
    solvent := solv, energy := en, nbo := some (), run_nbo6 := true,
    nbo_external := false, task_id := .s tid }

/-- The scenario molecule: water entries id 1 and 2 with equal ranking key
`(2, -5)`, vacuum entry id 3 with key `(1, -3)`. -/
def scnMol : MolDoc :=
  { molecule_id := "m1", formula_alphabetical := "h2o", deprecated := false,
    charge := 0, spin_multiplicity := 1,
    entries := [scnEntry "water" 2 (-5) "1", scnEntry "water" 2 (-5) "2",
                scnEntry "vacuum" 1 (-3) "3"] }

/-- The scenario task store: every entry's task resolves on the primary
lookup. -/
def scnTasks : List TaskRec :=
  [⟨.s "1", "h2o", true, "water"⟩, ⟨.s "2", "h2o", true, "water"⟩,
   ⟨.s "3", "h2o", true, "vacuum"⟩]

/-! ## Helper lemmas -/

/-- `List.contains` agrees with membership (lawful `BEq`). -/
theorem contains_true_iff {α} [BEq α] [LawfulBEq α] (l : List α) (a : α) :
    l.contains a = true ↔ a ∈ l := by
  simp [List.contains, List.elem_iff]

/-- Negated form of `contains_true_iff`. -/
theorem contains_false_iff {α} [BEq α] [LawfulBEq α] (l : List α) (a : α) :
    l.contains a = false ↔ a ∉ l := by
  rw [← contains_true_iff l a]
  cases l.contains a <;> simp

/-- Membership in the unprocessed-id set: exactly the ids of matching,
non-deprecated molecules absent from the target store. -/
theorem mem_to_process_docs (q : MolDoc → Bool) (mols : List MolDoc)
    (orbs : List OrbOut) (i : String) :
    i ∈ to_process_docs q mols orbs ↔
      (∃ m ∈ mols, q m = true ∧ m.deprecated = false ∧ m.molecule_id = i) ∧
        ∀ d ∈ orbs, d.molecule_id ≠ i := by
  unfold to_process_docs all_mols orb_ids
  rw [List.mem_filter, List.mem_dedup]
  simp only [Bool.not_eq_true', contains_false_iff, List.mem_dedup, List.mem_map,
    List.mem_filter, Bool.and_eq_true, Bool.not_eq_true']
  constructor
  · rintro ⟨⟨m, ⟨hm, hq, hdep⟩, rfl⟩, hout⟩
    exact ⟨⟨m, hm, hq, hdep, rfl⟩, fun d hd hdi => hout ⟨d, hd, hdi⟩⟩
  · rintro ⟨⟨m, hm, hq, hdep, rfl⟩, hout⟩
    exact ⟨⟨m, ⟨hm, hq, hdep⟩, rfl⟩, fun h => by
      obtain ⟨d, hd, hdi⟩ := h
      exact hout d hd hdi⟩

/-- Membership in the pending formula set: exactly the formulas of matching,
non-deprecated molecules whose molecule id is absent from the target store. -/
theorem mem_to_process_forms (q : MolDoc → Bool) (mols : List MolDoc)
    (orbs : List OrbOut) (f : String) :
    f ∈ to_process_forms q mols orbs ↔
      ∃ m, m ∈ mols ∧ q m = true ∧ m.deprecated = false ∧
        m.formula_alphabetical = f ∧ ∀ d ∈ orbs, d.molecule_id ≠ m.molecule_id := by
  unfold to_process_forms all_mols
  rw [List.mem_dedup]
  simp only [List.mem_map, List.mem_filter, Bool.and_eq_true, Bool.not_eq_true',
    contains_true_iff]
  constructor
  · rintro ⟨m, ⟨⟨hm, hq, hdep⟩, hin⟩, rfl⟩
    rw [mem_to_process_docs] at hin
    exact ⟨m, hm, hq, hdep, rfl, hin.2⟩
  · rintro ⟨m, hm, hq, hdep, rfl, hout⟩
    refine ⟨m, ⟨⟨hm, hq, hdep⟩, ?_⟩, rfl⟩
    rw [mem_to_process_docs]
    exact ⟨⟨m, hm, hq, hdep, rfl⟩, hout⟩

/-- When the flattened batch is empty, `update_targets` leaves the store
untouched: the removal criteria set is empty and the upsert batch is empty. -/
theorem update_targets_empty_batch (ts : Nat) (items : List (List OrbOut))
    (store : List OrbOut) (h : items.flatten = []) :
    update_targets ts items store = store := by
  unfold update_targets
  rw [h]
  simp [remove_by_ids, upsertAll]

/-! ## Claims -/

/-- C9: `Boltztrap2DosBuilder.process_item` raises an unhandled exception on
every input: no binding named `st` is in scope, and both the spin-polarized
and the unpolarized branch resolve the name `st` for the `BandstructureLoader`
call, so no input ever yields a DOS result (inputs missing the dict fields
raise `KeyError` even earlier). -/
theorem boltztrap2_process_item_never_ok :
    "st" ∉ boltztrap2_scope ∧
      ∀ it : BoltzItem, (boltztrap2_process_item it).isOk = false := by
  refine ⟨by decide, fun it => ?_⟩
  obtain ⟨a, b, c, d⟩ := it
  cases a <;> cases b <;> cases c <;> cases d <;> rfl

/-- A matching, non-deprecated molecule belongs to the work group of its own
formula. -/
theorem mem_group_for (q : MolDoc → Bool) (mols : List MolDoc) (m : MolDoc)
    (hm : m ∈ mols) (hq : q m = true) (hdep : m.deprecated = false) :
    m ∈ group_for q mols m.formula_alphabetical := by
  unfold group_for all_mols
  rw [List.mem_filter, List.mem_filter]
  exact ⟨⟨hm, by simp [hq, hdep]⟩, by simp⟩

/-- C1 (code-bug evidence): on the spec's three-entry scenario, with every
task lookup succeeding, `process_item` produces three documents — two of them
for the (molecule, water) pair, because the entry loop of orbitals.py lines
218-254 has no `break` after the first successful resolution — where the
claim (and spec §8) expect exactly two documents, one per (molecule, solvent)
pair, built from the minimal-RankingKey entry. -/
theorem process_item_scenario_three_docs :
    process_item scnTasks [scnMol] =
      .ok [⟨"m1", "water", .s "1", none⟩, ⟨"m1", "water", .s "2", none⟩,
           ⟨"m1", "vacuum", .s "3", none⟩] ∧
    ((process_item scnTasks [scnMol]).toOption.getD []).length ≠ 2 := by
  constructor
  · rfl
  · decide

/-- C8: a batch that flattens to zero documents leaves the target store
unchanged under `update_targets`: nothing is removed, nothing is inserted. -/
theorem update_targets_noop_on_empty (ts : Nat) (items : List (List OrbOut))
    (store : List OrbOut) (h : items.flatten = []) :
    update_targets ts items store = store :=
  update_targets_empty_batch ts items store h

/-- Witness for C8: a batch of one empty chunk over a one-document store. -/
theorem update_targets_noop_on_empty_witness :
    update_targets 7 [[]] [⟨"a", "w", .i 1, some 3⟩] = [⟨"a", "w", .i 1, some 3⟩] :=
  update_targets_noop_on_empty 7 [[]] [⟨"a", "w", .i 1, some 3⟩] rfl

/-- C4: the pending set of discovery is exactly the group keys
(`formula_alphabetical`) of non-deprecated source molecules matching the
extra query whose `molecule_id` is not among the target store's distinct
molecule ids; and after a commit that wrote a document for every molecule of
a group, that group is absent from the pending set of the next discovery
call. -/
theorem get_items_pending_set (q : MolDoc → Bool) (mols : List MolDoc)
    (orbs : List OrbOut) :
    (∀ f, f ∈ to_process_forms q mols orbs ↔
        ∃ m, m ∈ mols ∧ q m = true ∧ m.deprecated = false ∧
          m.formula_alphabetical = f ∧ ∀ d ∈ orbs, d.molecule_id ≠ m.molecule_id) ∧
    ∀ (orbs2 : List OrbOut) (g : String),
      (∀ m ∈ group_for q mols g, ∃ d ∈ orbs2, d.molecule_id = m.molecule_id) →
        g ∉ to_process_forms q mols orbs2 := by
  refine ⟨fun f => mem_to_process_forms q mols orbs f, fun orbs2 g hcov hg => ?_⟩
  rw [mem_to_process_forms] at hg
  obtain ⟨m, hm, hq, hdep, hform, hout⟩ := hg
  have hmg : m ∈ group_for q mols g := hform ▸ mem_group_for q mols m hm hq hdep
  obtain ⟨d, hd, hdi⟩ := hcov m hmg
  exact hout d hd hdi

/-- Witness for C4: molecule m1 (formula h2o) is covered by a committed
document, so h2o is no longer pending. -/
theorem get_items_pending_set_witness :
    "h2o" ∉ to_process_forms (fun _ => true) [⟨"m1", "h2o", false, 0, 1, []⟩]
        [⟨"m1", "water", .s "1", some 1⟩] :=
  (get_items_pending_set (fun _ => true) [⟨"m1", "h2o", false, 0, 1, []⟩] []).2
    [⟨"m1", "water", .s "1", some 1⟩] "h2o" (by decide)

/-- C10: `process_item` applied to an empty group raises (an `IndexError`
from `mols[0]`, embedded as `Except.error`) rather than returning an empty
result; and every group yielded by discovery is a non-empty list, because
each pending formula is the formula of at least one molecule matched by the
discovery query, so under the discovery precondition the error branch is
unreachable. -/
theorem process_item_empty_group (tasks : List TaskRec) (q : MolDoc → Bool)
    (mols : List MolDoc) (orbs : List OrbOut) :
    process_item tasks [] = .error "IndexError: list index out of range" ∧
    ∀ f ∈ to_process_forms q mols orbs, group_for q mols f ≠ [] := by
  refine ⟨rfl, fun f hf => ?_⟩
  rw [mem_to_process_forms] at hf
  obtain ⟨m, hm, hq, hdep, hform, -⟩ := hf
  have hmg : m ∈ group_for q mols f := hform ▸ mem_group_for q mols m hm hq hdep
  intro hnil
  rw [hnil] at hmg
  exact absurd hmg (List.not_mem_nil m)

/-- Witness for C10: a concrete pending formula whose work group is
non-empty. -/
theorem process_item_empty_group_witness :
    group_for (fun _ => true) [⟨"m1", "h2o", false, 0, 1, []⟩] "h2o" ≠ [] :=
  (process_item_empty_group [] (fun _ => true) [⟨"m1", "h2o", false, 0, 1, []⟩] []).2
    "h2o" (by decide)

/-- The chunks of `grouper` concatenate back to the input list (whenever the
chunk size is positive or the list is empty). -/
theorem grouper_flatten {α} (n : Nat) (l : List α) (h : 1 ≤ n ∨ l = []) :
    (grouper n l).flatten = l := by
  induction l using grouper.induct n with
  | case1 => rw [grouper]; rfl
  | case2 x xs h0 =>
    rcases h with h | h
    · omega
    · exact absurd h (List.cons_ne_nil x xs)
  | case3 x xs h0 ih =>
    rw [grouper]
    simp only [dif_neg h0, List.flatten_cons]
    rw [ih (Or.inl (Nat.one_le_iff_ne_zero.mpr h0))]
    exact List.take_append_drop n (x :: xs)

/-- Every chunk of `grouper n` has at most `n` elements. -/
theorem grouper_chunk_le {α} (n : Nat) (l : List α) :
    ∀ c ∈ grouper n l, c.length ≤ n := by
  induction l using grouper.induct n with
  | case1 =>
    intro c hc
    rw [grouper] at hc
    exact absurd hc (List.not_mem_nil c)
  | case2 x xs h0 =>
    intro c hc
    rw [grouper, dif_pos h0] at hc
    exact absurd hc (List.not_mem_nil c)
  | case3 x xs h0 ih =>
    intro c hc
    rw [grouper, dif_neg h0] at hc
    rcases List.mem_cons.mp hc with rfl | hc
    · exact List.length_take_le n (x :: xs)
    · exact ih c hc

/-- The pending formula list is duplicate-free (it embeds a Python set). -/
theorem to_process_forms_nodup (q : MolDoc → Bool) (mols : List MolDoc)
    (orbs : List OrbOut) : (to_process_forms q mols orbs).Nodup := by
  unfold to_process_forms
  exact List.nodup_dedup _

/-- C5: for every `n ≥ 1`, the chunks produced by `prechunk n` concatenate to
exactly the pending set computed by discovery (hence their union is the
pending set), they are pairwise disjoint, and each chunk has at most
`ceil(|pending| / n)` elements. -/
theorem prechunk_partition (q : MolDoc → Bool) (mols : List MolDoc)
    (orbs : List OrbOut) (n : Nat) (hn : 1 ≤ n) :
    (prechunk q mols orbs n).flatten = to_process_forms q mols orbs ∧
    (prechunk q mols orbs n).Pairwise List.Disjoint ∧
    ∀ c ∈ prechunk q mols orbs n,
      c.length ≤ ((to_process_forms q mols orbs).length + n - 1) / n := by
  have hfl : (prechunk q mols orbs n).flatten = to_process_forms q mols orbs := by
    unfold prechunk
    apply grouper_flatten
    rcases List.eq_nil_or_concat (to_process_forms q mols orbs) with h | ⟨l2, b, h⟩
    · exact Or.inr h
    · left
      rw [Nat.one_le_div_iff (by omega)]
      have : 1 ≤ (to_process_forms q mols orbs).length := by
        rw [h]; simp
      omega
  refine ⟨hfl, ?_, ?_⟩
  · have hnd : (prechunk q mols orbs n).flatten.Nodup := by
      rw [hfl]; exact to_process_forms_nodup q mols orbs
    exact (List.nodup_flatten.mp hnd).2
  · exact fun c hc => grouper_chunk_le _ _ c hc

/-- Witness for C5: two pending formulas split into two chunks. -/
theorem prechunk_partition_witness :
    (prechunk (fun _ => true)
        [⟨"m1", "h2o", false, 0, 1, []⟩, ⟨"m2", "o2", false, 0, 1, []⟩] [] 2).flatten
      = to_process_forms (fun _ => true)
        [⟨"m1", "h2o", false, 0, 1, []⟩, ⟨"m2", "o2", false, 0, 1, []⟩] [] :=
  (prechunk_partition (fun _ => true)
    [⟨"m1", "h2o", false, 0, 1, []⟩, ⟨"m2", "o2", false, 0, 1, []⟩] [] 2
    (by decide)).1

/-- C6: for every entry reached by the inner loop, the originating task is
resolved by a primary lookup on the entry's `task_id`; a primary hit is
returned as-is; the resolution misses exactly when the primary lookup misses
and the integer-coerced retry misses too (a failed coercion counting as a
miss); and an entry whose resolution misses is skipped silently: the loop
produces no document for it and continues with the remaining entries. -/
theorem task_lookup_fallback (tasks : List TaskRec) (f molId : String)
    (e : Entry) (rest : List Entry) :
    (∀ d, tasks_query_one tasks e.task_id f = some d →
      resolveTask tasks f e.task_id = some d) ∧
    (resolveTask tasks f e.task_id = none ↔
      tasks_query_one tasks e.task_id f = none ∧
        ∀ n, e.task_id.intCoerce = some n →
          tasks_query_one tasks (TId.i n) f = none) ∧
    (resolveTask tasks f e.task_id = none →
      solventLoop tasks f molId (e :: rest) = solventLoop tasks f molId rest) := by
  refine ⟨?_, ?_, ?_⟩
  · intro d hd
    unfold resolveTask
    rw [hd]
  · unfold resolveTask
    cases hq : tasks_query_one tasks e.task_id f with
    | some d => simp
    | none =>
      cases hc : e.task_id.intCoerce with
      | none => simp [hc]
      | some m => simp [hc]
  · intro h
    show (match resolveTask tasks f e.task_id with
      | none => solventLoop tasks f molId rest
      | some t => OrbitalDoc_from_task t molId :: solventLoop tasks f molId rest)
      = solventLoop tasks f molId rest
    rw [h]

/-- Witness for C6: an entry whose task id misses both lookups (empty task
store) is skipped and the remaining entry still produces its document. -/
theorem task_lookup_fallback_witness :
    solventLoop [] "h2o" "m1"
        [⟨0, 1, ⟨[1]⟩, "w", 0, some (), true, false, .i 9⟩]
      = solventLoop [] "h2o" "m1" [] :=
  (task_lookup_fallback [] "h2o" "m1"
    ⟨0, 1, ⟨[1]⟩, "w", 0, some (), true, false, .i 9⟩ []).2.2 (by decide)

/-- A molecule whose candidate pool is empty yields no documents. -/
theorem docsForMol_empty_pool (tasks : List TaskRec) (f : String) (mol : MolDoc)
    (h : candidatePool mol = []) : docsForMol tasks f mol = [] := by
  unfold docsForMol
  rw [h]
  rfl

/-- C7: an entry lacking the NBO sub-result (or not run with NBO7), or whose
charge or spin multiplicity differs from the molecule's, is excluded from the
candidate pool; a molecule whose pool is empty contributes no document; a
non-empty group all of whose molecules have empty pools yields `ok []` —
zero documents, no error; and since committing the empty result leaves the
target store untouched, the group is still pending on the next discovery
call. -/
theorem filtered_entries_excluded (tasks : List TaskRec) (q : MolDoc → Bool)
    (mols : List MolDoc) (orbs : List OrbOut) (g : String) (ts : Nat) :
    (∀ (mol : MolDoc) (e : Entry),
      (e.nbo = none ∨ (e.run_nbo6 = false ∧ e.nbo_external = false) ∨
        e.charge ≠ mol.charge ∨ e.spin_multiplicity ≠ mol.spin_multiplicity) →
      e ∉ candidatePool mol) ∧
    (∀ grp : List MolDoc, grp ≠ [] → (∀ m ∈ grp, candidatePool m = []) →
      process_item tasks grp = .ok []) ∧
    (g ∈ to_process_forms q mols orbs →
      g ∈ to_process_forms q mols (update_targets ts [[]] orbs)) := by
  refine ⟨?_, ?_, ?_⟩
  · intro mol e he hmem
    unfold candidatePool at hmem
    rw [List.mem_filter, List.mem_filter] at hmem
    obtain ⟨⟨-, hcs⟩, hnbo⟩ := hmem
    rw [Bool.and_eq_true, beq_iff_eq, beq_iff_eq] at hcs
    rw [Bool.and_eq_true, Bool.or_eq_true] at hnbo
    rcases he with h | ⟨h1, h2⟩ | h | h
    · rw [h] at hnbo
      exact absurd hnbo.1 (by simp)
    · rcases hnbo.2 with h | h
      · rw [h1] at h; exact absurd h (by simp)
      · rw [h2] at h; exact absurd h (by simp)
    · exact h hcs.1
    · exact h hcs.2
  · intro grp hne hall
    match grp, hne with
    | m0 :: grest, _ =>
      have hpi : process_item tasks (m0 :: grest)
          = .ok ((List.map (docsForMol tasks m0.formula_alphabetical)
              (m0 :: grest)).flatten) := rfl
      rw [hpi]
      congr 1
      rw [List.flatten_eq_nil_iff]
      intro l hl
      rw [List.mem_map] at hl
      obtain ⟨m, hm, rfl⟩ := hl
      exact docsForMol_empty_pool tasks m0.formula_alphabetical m (hall m hm)
  · intro hg
    rwa [update_targets_empty_batch ts [[]] orbs rfl]

/-- Witness for C7: a group whose only molecule's only entry lacks NBO data
produces zero documents without error, and its formula stays pending after
the empty commit. -/
theorem filtered_entries_excluded_witness :
    process_item []
        [⟨"m1", "h2o", false, 0, 1, [⟨0, 1, ⟨[1]⟩, "w", 0, none, true, false, .i 1⟩]⟩]
      = .ok [] ∧
    "h2o" ∈ to_process_forms (fun _ => true)
        [⟨"m1", "h2o", false, 0, 1, [⟨0, 1, ⟨[1]⟩, "w", 0, none, true, false, .i 1⟩]⟩]
        (update_targets 5 [[]] []) :=
  ⟨(filtered_entries_excluded [] (fun _ => true) [] [] "x" 0).2.1
      [⟨"m1", "h2o", false, 0, 1, [⟨0, 1, ⟨[1]⟩, "w", 0, none, true, false, .i 1⟩]⟩]
      (by decide) (by decide),
   (filtered_entries_excluded [] (fun _ => true)
      [⟨"m1", "h2o", false, 0, 1, [⟨0, 1, ⟨[1]⟩, "w", 0, none, true, false, .i 1⟩]⟩]
      [] "h2o" 5).2.2 (by decide)⟩

/-! ## Upsert and removal lemmas -/

/-- Unfolding lemma: upserting a batch head. -/
theorem upsertAll_cons (s : List OrbOut) (d : OrbOut) (ds : List OrbOut) :
    upsertAll s (d :: ds) = upsertAll (upsertOne s d) ds :=
  rfl

/-- Unfolding lemma: upserting an empty batch. -/
theorem upsertAll_nil (s : List OrbOut) : upsertAll s [] = s :=
  rfl

/-- An upsert whose key misses a prefix acts only on the suffix. -/
theorem upsertOne_append (base s : List OrbOut) (d : OrbOut)
    (h : ∀ x ∈ base, keyClash x d = false) :
    upsertOne (base ++ s) d = base ++ upsertOne s d := by
  induction base with
  | nil => rfl
  | cons b bs ih =>
    have hb : keyClash b d = false := h b (List.mem_cons_self b bs)
    simp only [List.cons_append, upsertOne, hb]
    rw [if_neg (by simp [hb])]
    exact congrArg (List.cons b) (ih fun x hx => h x (List.mem_cons_of_mem b hx))

/-- An upsert whose key is absent from the store appends. -/
theorem upsertOne_no_clash (s : List OrbOut) (d : OrbOut)
    (h : ∀ x ∈ s, keyClash x d = false) :
    upsertOne s d = s ++ [d] := by
  have h2 := upsertOne_append s [] d h
  rw [List.append_nil] at h2
  rw [h2]
  rfl

/-- A batch upsert whose keys all miss a prefix acts only on the suffix. -/
theorem upsertAll_append (base s docs : List OrbOut)
    (h : ∀ d ∈ docs, ∀ x ∈ base, keyClash x d = false) :
    upsertAll (base ++ s) docs = base ++ upsertAll s docs := by
  induction docs generalizing s with
  | nil => rfl
  | cons d ds ih =>
    rw [upsertAll_cons, upsertAll_cons,
      upsertOne_append base s d (h d (List.mem_cons_self d ds))]
    exact ih (upsertOne s d) fun d2 hd2 x hx => h d2 (List.mem_cons_of_mem d hd2) x hx

/-- A clash-free batch with pairwise distinct keys is appended wholesale. -/
theorem upsertAll_of_pairwise (s docs : List OrbOut)
    (hsd : ∀ d ∈ docs, ∀ x ∈ s, keyClash x d = false)
    (hd : docs.Pairwise fun a b => keyClash a b = false) :
    upsertAll s docs = s ++ docs := by
  induction docs generalizing s with
  | nil => rw [upsertAll_nil, List.append_nil]
  | cons d ds ih =>
    obtain ⟨hd1, hd2⟩ := List.pairwise_cons.mp hd
    rw [upsertAll_cons, upsertOne_no_clash s d (hsd d (List.mem_cons_self d ds))]
    rw [ih (s ++ [d]) ?_ hd2]
    · simp
    · intro d2 hd2m x hx
      rcases List.mem_append.mp hx with hx | hx
      · exact hsd d2 (List.mem_cons_of_mem d hd2m) x hx
      · rw [List.mem_singleton.mp hx]
        exact hd1 d2 hd2m

/-- Elements of a single upsert come from the store or are the new doc. -/
theorem mem_upsertOne (s : List OrbOut) (d x : OrbOut) (h : x ∈ upsertOne s d) :
    x ∈ s ∨ x = d := by
  induction s with
  | nil =>
    right
    simpa [upsertOne] using h
  | cons b bs ih =>
    rw [upsertOne] at h
    by_cases hb : keyClash b d = true
    · rw [if_pos (by simp [hb])] at h
      rcases List.mem_cons.mp h with rfl | h2
      · exact Or.inr rfl
      · exact Or.inl (List.mem_cons_of_mem b h2)
    · rw [if_neg (by simpa using hb)] at h
      rcases List.mem_cons.mp h with rfl | h2
      · exact Or.inl (List.mem_cons_self x bs)
      · rcases ih h2 with h3 | h3
        · exact Or.inl (List.mem_cons_of_mem b h3)
        · exact Or.inr h3

/-- Elements of a batch upsert come from the store or the batch. -/
theorem mem_upsertAll (s docs : List OrbOut) (x : OrbOut)
    (h : x ∈ upsertAll s docs) : x ∈ s ∨ x ∈ docs := by
  induction docs generalizing s with
  | nil =>
    left
    rwa [upsertAll_nil] at h
  | cons d ds ih =>
    rw [upsertAll_cons] at h
    rcases ih (upsertOne s d) h with h2 | h2
    · rcases mem_upsertOne s d x h2 with h3 | rfl
      · exact Or.inl h3
      · exact Or.inr (List.mem_cons_self x ds)
    · exact Or.inr (List.mem_cons_of_mem d h2)

/-- A key-preserving map commutes with a single upsert. -/
theorem map_upsertOne (f : OrbOut → OrbOut)
    (hf : ∀ a b, keyClash (f a) (f b) = keyClash a b) (s : List OrbOut)
    (d : OrbOut) : (upsertOne s d).map f = upsertOne (s.map f) (f d) := by
  induction s with
  | nil => rfl
  | cons b bs ih =>
    rw [upsertOne, List.map_cons, upsertOne, hf]
    by_cases hb : keyClash b d = true
    · rw [if_pos (by simp [hb]), if_pos (by simp [hb]), List.map_cons]
    · rw [if_neg (by simpa using hb), if_neg (by simpa using hb)]
      exact congrArg (List.cons (f b)) ih

/-- A key-preserving map commutes with a batch upsert. -/
theorem map_upsertAll (f : OrbOut → OrbOut)
    (hf : ∀ a b, keyClash (f a) (f b) = keyClash a b) (s docs : List OrbOut) :
    (upsertAll s docs).map f = upsertAll (s.map f) (docs.map f) := by
  induction docs generalizing s with
  | nil => rfl
  | cons d ds ih =>
    rw [upsertAll_cons, List.map_cons, upsertAll_cons, ← map_upsertOne f hf, ih]

/-- Membership in the distinct-id set of a store. -/
theorem mem_orb_ids (l : List OrbOut) (i : String) :
    i ∈ orb_ids l ↔ ∃ d ∈ l, d.molecule_id = i := by
  unfold orb_ids
  rw [List.mem_dedup, List.mem_map]

/-- Membership after removal by id. -/
theorem mem_remove_by_ids (ids : List String) (s : List OrbOut) (x : OrbOut) :
    x ∈ remove_by_ids ids s ↔ x ∈ s ∧ x.molecule_id ∉ ids := by
  unfold remove_by_ids
  rw [List.mem_filter]
  simp [Bool.not_eq_true', contains_false_iff]

/-- Removal by id is idempotent. -/
theorem remove_by_ids_idem (ids : List String) (s : List OrbOut) :
    remove_by_ids ids (remove_by_ids ids s) = remove_by_ids ids s := by
  unfold remove_by_ids
  rw [List.filter_filter]
  congr 1
  funext d
  cases ids.contains d.molecule_id <;> rfl

/-- Removal by id empties a list whose ids are all in the removal set. -/
theorem remove_by_ids_eq_nil (ids : List String) (l : List OrbOut)
    (h : ∀ x ∈ l, x.molecule_id ∈ ids) : remove_by_ids ids l = [] := by
  unfold remove_by_ids
  rw [List.filter_eq_nil_iff]
  intro a ha
  simp [contains_true_iff, h a ha]

/-- Removal distributes over append. -/
theorem remove_by_ids_append (ids : List String) (a b : List OrbOut) :
    remove_by_ids ids (a ++ b) = remove_by_ids ids a ++ remove_by_ids ids b := by
  unfold remove_by_ids
  rw [List.filter_append]

/-- `update_targets` on a single-chunk batch, in closed form: remove the
batch's molecule ids, then upsert the stamped batch. -/
theorem update_targets_single (ts : Nat) (out : List OrbOut) (store : List OrbOut) :
    update_targets ts [out] store
      = upsertAll (remove_by_ids (orb_ids out) store) (out.map (stampBt ts)) := by
  unfold update_targets orb_ids
  simp only [List.flatten_cons, List.flatten_nil, List.append_nil, List.length_cons,
    List.map_map]
  rw [if_pos (by omega)]
  have hcomp : ((fun x : OrbOut => x.molecule_id) ∘ stampBt ts)
      = fun x : OrbOut => x.molecule_id := rfl
  rw [hcomp]

/-- Key clash unfolded to field equalities. -/
theorem keyClash_eq_true (a b : OrbOut) :
    keyClash a b = true ↔ a.molecule_id = b.molecule_id ∧ a.solvent = b.solvent := by
  unfold keyClash
  rw [Bool.and_eq_true, beq_iff_eq, beq_iff_eq]

/-- Documents with different molecule ids never clash. -/
theorem keyClash_false_of_id_ne (a b : OrbOut) (h : a.molecule_id ≠ b.molecule_id) :
    keyClash a b = false := by
  cases hkc : keyClash a b with
  | false => rfl
  | true => exact absurd ((keyClash_eq_true a b).mp hkc).1 h

/-- A stamped batch document's molecule id is among the batch's ids. -/
theorem mem_ids_of_mem_stamped (ts : Nat) (fl : List OrbOut) (d : OrbOut)
    (hd : d ∈ fl.map (stampBt ts)) : d.molecule_id ∈ orb_ids fl := by
  rw [List.mem_map] at hd
  obtain ⟨d0, hd0, rfl⟩ := hd
  exact (mem_orb_ids fl _).mpr ⟨d0, hd0, rfl⟩

/-- `update_targets` on a non-empty outer batch, in closed form. -/
theorem update_targets_pos (ts : Nat) (items : List (List OrbOut))
    (h : items ≠ []) (store : List OrbOut) :
    update_targets ts items store
      = upsertAll (remove_by_ids (orb_ids items.flatten) store)
          (items.flatten.map (stampBt ts)) := by
  unfold update_targets orb_ids
  simp only [List.map_map]
  have hcomp : ((fun x : OrbOut => x.molecule_id) ∘ stampBt ts)
      = fun x : OrbOut => x.molecule_id := rfl
  rw [hcomp, if_pos]
  cases items with
  | nil => exact absurd rfl h
  | cons it its => simp

/-- C2: after a commit, the target store holds at most one document per
(molecule id, solvent) pair — assuming the invariant held before and the
batch itself is duplicate-key-free — and for every molecule id touched by
the batch, the documents remaining for that id are exactly the stamped batch
documents for it: the committed winner replaces whatever the store held. -/
theorem commit_at_most_one_per_key (ts : Nat) (items : List (List OrbOut))
    (store : List OrbOut) (hs : atMostOnePerKey store)
    (hb : atMostOnePerKey items.flatten) :
    atMostOnePerKey (update_targets ts items store) ∧
    ∀ i ∈ orb_ids items.flatten,
      (update_targets ts items store).filter (fun d => d.molecule_id == i)
        = (items.flatten.map (stampBt ts)).filter (fun d => d.molecule_id == i) := by
  cases items with
  | nil =>
    have hupd : update_targets ts [] store = store := rfl
    rw [hupd]
    refine ⟨hs, fun i hi => ?_⟩
    simp [orb_ids] at hi
  | cons it its =>
    have hupd := update_targets_pos ts (it :: its) (List.cons_ne_nil it its) store
    set fl := (it :: its).flatten with hfl
    set docs := fl.map (stampBt ts) with hdocsdef
    set ids := orb_ids fl with hidsdef
    set base := remove_by_ids ids store with hbasedef
    have hA : ∀ d ∈ docs, ∀ x ∈ base, keyClash x d = false := by
      intro d hd x hx
      have hdid : d.molecule_id ∈ ids := mem_ids_of_mem_stamped ts fl d hd
      have hxid : x.molecule_id ∉ ids := ((mem_remove_by_ids ids store x).mp hx).2
      exact keyClash_false_of_id_ne x d fun he => hxid (he ▸ hdid)
    have hdp : docs.Pairwise fun a b => keyClash a b = false :=
      List.pairwise_map.mpr hb
    have hstore : update_targets ts (it :: its) store = base ++ docs := by
      rw [hupd, upsertAll_of_pairwise base docs hA hdp]
    rw [hstore]
    constructor
    · show List.Pairwise (fun a b => keyClash a b = false) (base ++ docs)
      rw [List.pairwise_append]
      refine ⟨List.Pairwise.sublist (List.filter_sublist store) hs, hdp, ?_⟩
      intro a ha b hbmem
      have haid : a.molecule_id ∉ ids := ((mem_remove_by_ids ids store a).mp ha).2
      have hbid : b.molecule_id ∈ ids := mem_ids_of_mem_stamped ts fl b hbmem
      exact keyClash_false_of_id_ne a b fun he => haid (he ▸ hbid)
    · intro i hi
      rw [List.filter_append]
      have hnil : base.filter (fun d => d.molecule_id == i) = [] := by
        rw [List.filter_eq_nil_iff]
        intro x hx hxi
        have hxid : x.molecule_id ∉ ids := ((mem_remove_by_ids ids store x).mp hx).2
        rw [beq_iff_eq] at hxi
        exact hxid (hxi ▸ hi)
      rw [hnil, List.nil_append]

/-- Witness for C2: the old (m1, water) document of the store is replaced by
the stamped new one. -/
theorem commit_at_most_one_per_key_witness :
    (update_targets 2 [[⟨"m1", "water", .s "1", none⟩]]
        [⟨"m1", "water", .s "9", some 1⟩]).filter (fun d => d.molecule_id == "m1")
      = ([⟨"m1", "water", .s "1", none⟩].map (stampBt 2)).filter
          (fun d => d.molecule_id == "m1") :=
  (commit_at_most_one_per_key 2 [[⟨"m1", "water", .s "1", none⟩]]
    [⟨"m1", "water", .s "9", some 1⟩] (by decide) (by decide)).2 "m1" (by decide)

/-- C3: the transform phase is a pure function of the source stores, and
running transform + load twice on unchanged source data leaves the target
store with the same documents as running them once, identical except for the
build timestamp `_bt`. -/
theorem build_idempotent (tasks : List TaskRec) (items : List MolDoc)
    (orbs : List OrbOut) (ts1 ts2 : Nat) (out : List OrbOut)
    (_hpi : process_item tasks items = .ok out) :
    (update_targets ts2 [out] (update_targets ts1 [out] orbs)).map eraseBt
      = (update_targets ts1 [out] orbs).map eraseBt := by
  rw [update_targets_single ts1, update_targets_single ts2]
  set ids := orb_ids out with hidsdef
  set base := remove_by_ids ids orbs with hbasedef
  have hA : ∀ ts : Nat, ∀ d ∈ out.map (stampBt ts), ∀ x ∈ base, keyClash x d = false := by
    intro ts d hd x hx
    have hdid : d.molecule_id ∈ ids := mem_ids_of_mem_stamped ts out d hd
    have hxid : x.molecule_id ∉ ids := ((mem_remove_by_ids ids orbs x).mp hx).2
    exact keyClash_false_of_id_ne x d fun he => hxid (he ▸ hdid)
  have hsplit : ∀ ts : Nat, upsertAll base (out.map (stampBt ts))
      = base ++ upsertAll [] (out.map (stampBt ts)) := by
    intro ts
    have h2 := upsertAll_append base [] (out.map (stampBt ts)) (hA ts)
    rwa [List.append_nil] at h2
  rw [hsplit ts1, remove_by_ids_append]
  have hb1 : remove_by_ids ids base = base := remove_by_ids_idem ids orbs
  have hb2 : remove_by_ids ids (upsertAll [] (out.map (stampBt ts1))) = [] := by
    apply remove_by_ids_eq_nil
    intro x hx
    rcases mem_upsertAll [] _ x hx with h0 | h0
    · exact absurd h0 (List.not_mem_nil x)
    · exact mem_ids_of_mem_stamped ts1 out x h0
  rw [hb1, hb2, List.append_nil, hsplit ts2, List.map_append, List.map_append]
  congr 1
  have herase : ∀ ts : Nat,
      (upsertAll [] (out.map (stampBt ts))).map eraseBt
        = upsertAll [] (out.map eraseBt) := by
    intro ts
    rw [map_upsertAll eraseBt (fun a b => rfl) [] (out.map (stampBt ts)), List.map_map]
    rfl
  rw [herase ts1, herase ts2]

/-- Witness for C3 on the three-entry scenario. -/
theorem build_idempotent_witness :
    (update_targets 9 [[⟨"m1", "water", .s "1", none⟩, ⟨"m1", "water", .s "2", none⟩,
        ⟨"m1", "vacuum", .s "3", none⟩]]
      (update_targets 4 [[⟨"m1", "water", .s "1", none⟩, ⟨"m1", "water", .s "2", none⟩,
        ⟨"m1", "vacuum", .s "3", none⟩]] [])).map eraseBt
      = (update_targets 4 [[⟨"m1", "water", .s "1", none⟩, ⟨"m1", "water", .s "2", none⟩,
          ⟨"m1", "vacuum", .s "3", none⟩]] []).map eraseBt :=
  build_idempotent scnTasks [scnMol] [] 4 9
    [⟨"m1", "water", .s "1", none⟩, ⟨"m1", "water", .s "2", none⟩,
     ⟨"m1", "vacuum", .s "3", none⟩] rfl

end Emmet
